import Mathlib

/-! Blinky pixel mappers.

A shallow embedding of the classes declared in `arduino/Blinky/BlinkyModes.h`
(mdwelsh/sidney-projects) together with theorems about them.

Conventions of the embedding:

* `int` is the 32-bit two's-complement integer of the target board.  Values are
  mathematical integers (`Int`); a sum computed by the embedded code is brought
  back into the 32-bit range by `wrapInt`, `%` is the truncating remainder of C++
  and `&` acts on the 32-bit patterns.
* `uint32_t` colours are natural numbers.
* `float` members are carried as exact rationals: the code embedded here stores
  and compares them, and the one computation on them (the midpoint in the
  constructor of `Twinkler`) is exact rational arithmetic.
* A member function that mutates its object returns the new object next to its
  result.  Operations whose behaviour C++ leaves undefined (remainder by zero, a
  subscript outside the array) return `none`.
* Functions and constants that the header uses but does not define (`Wheel`,
  `random`, `MAX_PIXELS`) are parameters.
-/

namespace Blinky

/-! ## Machine integers -/

/-- Smallest value of the 32-bit `int`. -/
def INT_MIN : Int := -2147483648

/-- Largest value of the 32-bit `int`. -/
def INT_MAX : Int := 2147483647

/-- Two's-complement wrap of a mathematical integer into the range of `int`. -/
def wrapInt (x : Int) : Int := (x + 2147483648) % 4294967296 - 2147483648

/-- The 32-bit pattern of an `int`, read as an unsigned number. -/
def toBits (x : Int) : Nat := (x % 4294967296).toNat

/-- The `int` whose 32-bit pattern is the given unsigned number. -/
def ofBits (n : Nat) : Int := wrapInt (Int.ofNat n)

/-- The C++ operator `&` on two `int` operands. -/
def bitAnd (a b : Int) : Int := ofBits (Nat.land (toBits a) (toBits b))

/-- The C++ operator `%` on two `int` operands: truncating remainder, undefined
for a zero divisor and for `INT_MIN % -1`. -/
def cRem (a b : Int) : Option Int :=
  if b = 0 then none
  else if a = INT_MIN ∧ b = -1 then none
  else some (Int.tmod a b)

/-- Conversion of an `int` to the `byte` parameter of `Wheel`. -/
def toByte (x : Int) : Nat := (x % 256).toNat

/-- The C++ subscript `p[i]` on an array whose elements are the given list, which
is defined only for `0 ≤ i < length`. -/
def subscript {α : Type} (xs : List α) (i : Int) : Option α :=
  if 0 ≤ i then xs[i.toNat]? else none

/-! ## Configuration and the base classes -/

/-- Modelled from the spec: the type `deviceConfig_t` is declared in `Blinky.h`,
which is not part of the sources at hand; the fields are those of the read-only
`Config` record, `{ brightness: int, color1: RGB, color2: RGB, speed: int,
colorChange: int }`. -/
structure deviceConfig_t where
  brightness : Int
  color1 : Nat
  color2 : Nat
  speed : Int
  colorChange : Int
  deriving DecidableEq, Repr

/-- Data members of `ColorChangingMode`. -/
structure ColorChangingMode where
  _color1 : Nat
  _color2 : Nat
  _speed : Int
  _colorChange : Int
  _brightness : Int
  _wheel1 : Int
  _wheel2 : Int
  deriving DecidableEq, Repr

/-- Constructor `ColorChangingMode::ColorChangingMode(config)`. -/
def ColorChangingMode.new (config : deviceConfig_t) : ColorChangingMode :=
  { _brightness := config.brightness
    _color1 := config.color1
    _color2 := config.color2
    _speed := config.speed
    _colorChange := config.colorChange
    _wheel1 := 0
    _wheel2 := 128 }

/-- Data members of `PixelMapper`: those of its base class. -/
structure PixelMapper extends ColorChangingMode where
  deriving DecidableEq, Repr

/-- Constructor `PixelMapper::PixelMapper(config)`. -/
def PixelMapper.new (config : deviceConfig_t) : PixelMapper :=
  { toColorChangingMode := ColorChangingMode.new config }

/-! ## SingleColorMapper -/

/-- Data members of `SingleColorMapper`. -/
structure SingleColorMapper extends PixelMapper where
  deriving DecidableEq, Repr

/-- Constructor `SingleColorMapper::SingleColorMapper(config)`. -/
def SingleColorMapper.new (config : deviceConfig_t) : SingleColorMapper :=
  { toPixelMapper := PixelMapper.new config }

/-- Member function `SingleColorMapper::PixelColor(index)`: `return _color1;`. -/
def SingleColorMapper.PixelColor (m : SingleColorMapper) (_index : Int) :
    Nat × SingleColorMapper :=
  (m._color1, m)

/-! ## MultiColorMapper -/

/-- Data members of `MultiColorMapper`; `_colors` is the array the pointer
refers to. -/
structure MultiColorMapper extends PixelMapper where
  _colors : List Nat
  _numcolors : Int
  deriving DecidableEq, Repr

/-- Constructor `MultiColorMapper::MultiColorMapper(config, colors, numcolors)`. -/
def MultiColorMapper.new (config : deviceConfig_t) (colors : List Nat) (numcolors : Int) :
    MultiColorMapper :=
  { toPixelMapper := PixelMapper.new config
    _colors := colors
    _numcolors := numcolors }

/-- Member function `MultiColorMapper::PixelColor(index)`:
`return _colors[index % _numcolors];`. -/
def MultiColorMapper.PixelColor (m : MultiColorMapper) (index : Int) :
    Option (Nat × MultiColorMapper) :=
  match cRem index m._numcolors with
  | none => none
  | some i =>
    match subscript m._colors i with
    | none => none
    | some c => some (c, m)

/-- The results of calling `PixelColor` once for each index of the list, in order,
threading the mapper through the calls. -/
def MultiColorMapper.calls (m : MultiColorMapper) :
    List Int → Option (List Nat × MultiColorMapper)
  | [] => some ([], m)
  | i :: is =>
    match m.PixelColor i with
    | none => none
    | some (c, m1) =>
      match MultiColorMapper.calls m1 is with
      | none => none
      | some (cs, m2) => some (c :: cs, m2)

/-! ## RandomColorMapper -/

/-- Data members of `RandomColorMapper`: those of `MultiColorMapper`. -/
structure RandomColorMapper extends MultiColorMapper where
  deriving DecidableEq, Repr

/-- Constructor `RandomColorMapper::RandomColorMapper(config, colors, numcolors)`. -/
def RandomColorMapper.new (config : deviceConfig_t) (colors : List Nat) (numcolors : Int) :
    RandomColorMapper :=
  { toMultiColorMapper := MultiColorMapper.new config colors numcolors }

/-- Member function `RandomColorMapper::PixelColor(index)`:
`return _colors[random(0, _numcolors)];`.

The library function `random` is an injected generator: in generator state `g`
the call `random(lo, hi)` yields the number `(random lo hi g).1` and leaves the
generator in state `(random lo hi g).2`. -/
def RandomColorMapper.PixelColor {G : Type} (random : Int → Int → G → Int × G)
    (m : RandomColorMapper) (_index : Int) (g : G) :
    Option (Nat × RandomColorMapper × G) :=
  match subscript m._colors (random 0 m._numcolors g).1 with
  | none => none
  | some c => some (c, m, (random 0 m._numcolors g).2)

/-! ## Rainbow -/

/-- Data members of `Rainbow`. -/
structure Rainbow extends PixelMapper where
  _wheel : Int
  deriving DecidableEq, Repr

/-- Constructor `Rainbow::Rainbow(config)`. -/
def Rainbow.new (config : deviceConfig_t) : Rainbow :=
  { toPixelMapper := PixelMapper.new config
    _wheel := 0 }

/-- The statements under `if (index == 0)`: `_wheel++; _wheel = _wheel % 256;`. -/
def Rainbow.advance (r : Rainbow) : Rainbow :=
  { r with _wheel := Int.tmod (wrapInt (r._wheel + 1)) 256 }

/-- Member function `Rainbow::PixelColor(index)`.  The function `Wheel` is defined
outside the header and is a parameter, a function of the byte it receives. -/
def Rainbow.PixelColor (Wheel : Nat → Nat) (r : Rainbow) (index : Int) : Nat × Rainbow :=
  let r1 := if index = 0 then r.advance else r
  (Wheel (toByte (bitAnd (wrapInt (index + r1._wheel)) 255)), r1)

/-- The results of calling `PixelColor` once for each index of the list, in order,
threading the mapper through the calls. -/
def Rainbow.calls (Wheel : Nat → Nat) (r : Rainbow) : List Int → List Nat × Rainbow
  | [] => ([], r)
  | i :: is =>
    let out := Rainbow.calls Wheel (Rainbow.PixelColor Wheel r i).2 is
    ((Rainbow.PixelColor Wheel r i).1 :: out.1, out.2)

/-- The indices of one frame on a strip of `n` pixels: `0, 1, ..., n - 1`. -/
def frameIndices (n : Nat) : List Int := (List.range n).map Int.ofNat

/-- The mapper after `k` consecutive calls of `PixelColor(0)`. -/
def Rainbow.afterZeroCalls (Wheel : Nat → Nat) (r : Rainbow) : Nat → Rainbow
  | 0 => r
  | k + 1 => (Rainbow.PixelColor Wheel (Rainbow.afterZeroCalls Wheel r k) 0).2

/-- The colour returned by call number `k` (counted from 0) in a run of
consecutive calls of `PixelColor(0)`. -/
def Rainbow.zeroCallColor (Wheel : Nat → Nat) (r : Rainbow) (k : Nat) : Nat :=
  (Rainbow.PixelColor Wheel (Rainbow.afterZeroCalls Wheel r k) 0).1

/-! ## RotatingMode -/

/-- Data members of `RotatingMode`; `modes_` is the array of sub-modes the pointer
refers to, over an arbitrary type of modes, and `lastSwitch_` is unsigned. -/
structure RotatingMode (M : Type) where
  modes_ : List M
  numModes_ : Int
  rotateTime_ : Int
  curIndex_ : Int
  lastSwitch_ : Nat

/-- Constructor `RotatingMode::RotatingMode(modes, numModes, rotateTime)`. -/
def RotatingMode.new {M : Type} (modes : List M) (numModes : Int) (rotateTime : Int) :
    RotatingMode M :=
  { modes_ := modes
    numModes_ := numModes
    rotateTime_ := rotateTime
    lastSwitch_ := 0
    curIndex_ := 0 }

/-! ## Rain -/

/-- One element of the member array `Rain::_state`.  The constructor does not write
`color`; an unwritten colour is `none`. -/
structure RainPixel where
  color : Option Nat
  value : ℚ
  growing : Bool
  deriving DecidableEq, Repr

/-- Data members of `Rain`, over an arbitrary type `M` of inner mappers. -/
structure Rain (M : Type) extends PixelMapper where
  _mapper : M
  _state : List RainPixel
  _maxDrops : Int
  _numActive : Int
  _initValue : ℚ
  _maxValue : ℚ
  _minValue : ℚ
  _growSpeed : ℚ
  _fadeSpeed : ℚ
  _fadeProb : ℚ
  _multi : Bool
  _randInit : Bool

/-- Constructor `Rain::Rain(config, mapper, maxdrops, initValue, maxValue, minValue,
growSpeed, fadeSpeed, fadeProb, multi, randInit)`.  The constant `MAX_PIXELS` is
declared in `Blinky.h` and is a parameter. -/
def Rain.new {M : Type} (MAX_PIXELS : Nat) (config : deviceConfig_t) (mapper : M)
    (maxdrops : Int) (initValue maxValue minValue growSpeed fadeSpeed fadeProb : ℚ)
    (multi randInit : Bool) : Rain M :=
  { toPixelMapper := PixelMapper.new config
    _mapper := mapper
    _numActive := 0
    _maxDrops := maxdrops
    _initValue := initValue
    _maxValue := maxValue
    _minValue := minValue
    _growSpeed := growSpeed
    _fadeSpeed := fadeSpeed
    _fadeProb := fadeProb
    _multi := multi
    _randInit := randInit
    _state := List.replicate MAX_PIXELS { color := none, value := 0, growing := false } }

/-- Modelled from the spec: the phases `idle`, `growing`, `fading` of one pixel of
the Rain state machine, which belongs to the body of `Rain::PixelColor`. -/
inductive RainPhase where
  | idle
  | growing
  | fading
  deriving DecidableEq, Repr

/-- Modelled from the spec: the state of the Rain state machine, whose transitions
are the body of `Rain::PixelColor`: the mapper with its data members, and the phase
of every pixel.  The array element of the header has the flag `growing` and no
other record of the phase, and the body that tells an idle pixel from a fading one
is not in the header, so the phase of each pixel is kept beside the array. -/
structure RainMachine (M : Type) where
  rain : Rain M
  phases : List RainPhase

/-- Modelled from the spec: the state machine of a mapper as constructed: no drop is
active, every pixel is idle. -/
def RainMachine.start {M : Type} (r : Rain M) : RainMachine M :=
  { rain := r
    phases := List.replicate r._state.length RainPhase.idle }

/-- Modelled from the spec: the outcome, for one call of `Rain::PixelColor`, whose
body is not in the header, of the two decisions taken from
the random source: `start` says that the `randInit`/`multi` policy lets a drop start
at this pixel, `fade` that the draw of probability `fadeProb` came out for fading. -/
structure RainDraw where
  start : Bool
  fade : Bool
  deriving DecidableEq, Repr

/-- Modelled from the spec: the transitions in the body of `Rain::PixelColor`, as
the pixel, its phase and the count of active drops after one step of the state
machine on pixel `p` in phase `ph`, the inner mapper having returned colour `c`.
An idle pixel starts a drop when `numActive < maxDrops` and the start policy allows
it.  A growing pixel adds `growSpeed` and turns to fading when the value has reached
`maxValue`.  A fading pixel subtracts `fadeSpeed` when the draw says so and, the
value being at most `minValue`, turns to idle, which decrements the count.  The
count is incremented and decremented as an exact integer. -/
def Rain.stepPixel {M : Type} (r : Rain M) (p : RainPixel) (ph : RainPhase) (c : Nat)
    (d : RainDraw) : RainPixel × RainPhase × Int :=
  match ph with
  | RainPhase.idle =>
    if r._numActive < r._maxDrops ∧ d.start = true then
      ({ color := some c, value := r._initValue, growing := true }, RainPhase.growing,
        r._numActive + 1)
    else (p, RainPhase.idle, r._numActive)
  | RainPhase.growing =>
    if r._maxValue ≤ p.value + r._growSpeed then
      ({ p with value := p.value + r._growSpeed, growing := false }, RainPhase.fading,
        r._numActive)
    else ({ p with value := p.value + r._growSpeed }, RainPhase.growing, r._numActive)
  | RainPhase.fading =>
    if d.fade = true then
      if p.value - r._fadeSpeed ≤ r._minValue then
        ({ p with value := p.value - r._fadeSpeed }, RainPhase.idle, r._numActive - 1)
      else ({ p with value := p.value - r._fadeSpeed }, RainPhase.fading, r._numActive)
    else
      if p.value ≤ r._minValue then (p, RainPhase.idle, r._numActive - 1)
      else (p, RainPhase.fading, r._numActive)

/-- Modelled from the spec: the body of `Rain::PixelColor`, which the header only
declares.  The inner mapper is asked for its colour first.  An idle pixel starts a
drop when `numActive < maxDrops` and the start policy allows it: the value becomes
`initValue`, the colour the inner colour, and `numActive` is incremented.  A growing
pixel adds `growSpeed` to its value and turns to fading once the value has reached
`maxValue`.  A fading pixel subtracts `fadeSpeed` when the draw says so and, once the
value is at most `minValue`, is idle again and `numActive` is decremented.  The
result is the stored colour scaled by the value normalised against `maxValue`.

`inner` is the function `PixelColor` of the inner mapper and `scale` the scaling of
a colour by a fraction; `index` subscripts `_state`, which is defined only inside
the array. -/
def Rain.PixelColor {M : Type} (inner : M → Int → Nat × M) (scale : Nat → ℚ → Nat)
    (s : RainMachine M) (index : Int) (d : RainDraw) : Option (Nat × RainMachine M) :=
  match subscript s.rain._state index with
  | none => none
  | some p =>
    match subscript s.phases index with
    | none => none
    | some ph =>
      let out := s.rain.stepPixel p ph (inner s.rain._mapper index).1 d
      some (scale (out.1.color.getD 0) (out.1.value / s.rain._maxValue),
        { rain :=
            { s.rain with
              _mapper := (inner s.rain._mapper index).2
              _state := s.rain._state.set index.toNat out.1
              _numActive := out.2.2 }
          phases := s.phases.set index.toNat out.2.1 })

/-- The state machine after a sequence of calls of `Rain::PixelColor`, each given by
its index and the outcome of its random decisions. -/
def Rain.run {M : Type} (inner : M → Int → Nat × M) (scale : Nat → ℚ → Nat)
    (s : RainMachine M) : List (Int × RainDraw) → Option (RainMachine M)
  | [] => some s
  | x :: xs =>
    match Rain.PixelColor inner scale s x.1 x.2 with
    | none => none
    | some out => Rain.run inner scale out.2 xs

/-! ## Rainbow: frames -/

/-- The mapper after `k` complete frames on a strip of `n` pixels, a frame being the
calls `PixelColor(0), ..., PixelColor(n - 1)` in increasing order. -/
def Rainbow.afterFrames (Wheel : Nat → Nat) (r : Rainbow) (n : Nat) : Nat → Rainbow
  | 0 => r
  | k + 1 => (Rainbow.calls Wheel (Rainbow.afterFrames Wheel r n k) (frameIndices n)).2

/-- The colours returned, pixel by pixel, in the frame that follows `k` complete
frames on a strip of `n` pixels. -/
def Rainbow.frameColors (Wheel : Nat → Nat) (r : Rainbow) (n k : Nat) : List Nat :=
  (Rainbow.calls Wheel (Rainbow.afterFrames Wheel r n k) (frameIndices n)).1

/-! ## Runner -/

/-- Data members of `Runner`. -/
structure Runner extends PixelMapper where
  _head1 : Int
  _head2 : Int
  _tail : Int
  _direction : Int
  deriving DecidableEq, Repr

/-- Constructor `Runner::Runner(config, tail, direction)`.  The global `strip` is
declared outside the header; `numPixels` is the value `strip->numPixels()` returns.
The operator `/` on `int` operands truncates. -/
def Runner.new (numPixels : Int) (config : deviceConfig_t) (tail direction : Int) : Runner :=
  { toPixelMapper := PixelMapper.new config
    _tail := tail
    _direction := direction
    _head1 := 0
    _head2 := Int.tdiv numPixels 2 }

/-! ## Twinkler -/

/-- Data members of `Twinkler`, over an arbitrary type `M` of inner mappers.  The
member array `_brightness` hides the member of the same name of
`ColorChangingMode`; it is the field `_pixelBrightness` here. -/
structure Twinkler (M : Type) extends PixelMapper where
  _mapper : M
  _stepRange : Int
  _minBrightness : ℚ
  _maxBrightness : ℚ
  _pixelBrightness : List ℚ

/-- Constructor `Twinkler::Twinkler(config, mapper, stepRange, minBrightness,
maxBrightness)`.  The constant `MAX_PIXELS` is declared in `Blinky.h` and is a
parameter; the arithmetic is exact. -/
def Twinkler.new {M : Type} (MAX_PIXELS : Nat) (config : deviceConfig_t) (mapper : M)
    (stepRange : Int) (minBrightness maxBrightness : ℚ) : Twinkler M :=
  { toPixelMapper := PixelMapper.new config
    _mapper := mapper
    _stepRange := stepRange
    _minBrightness := minBrightness
    _maxBrightness := maxBrightness
    _pixelBrightness :=
      List.replicate MAX_PIXELS (minBrightness + ((maxBrightness - minBrightness) / 2)) }

/-! ## RotatingMode: the tick -/

/-- Modelled from the spec: the last step of the body of `RotatingMode::run`, which
the header only declares: the tick is delegated to `modes[curIndex]`.  `runMode` is
the function `run` of a sub-mode; the subscript is defined only inside the array. -/
def RotatingMode.delegate {M : Type} (runMode : M → M) (r : RotatingMode M) :
    Option (RotatingMode M) :=
  match subscript r.modes_ r.curIndex_ with
  | none => none
  | some m => some { r with modes_ := r.modes_.set r.curIndex_.toNat (runMode m) }

/-- Modelled from the spec: the body of `RotatingMode::run`, which the header only
declares.  On a tick at time `now`: if `now - lastSwitch >= rotateTime`, `curIndex`
becomes `(curIndex + 1) mod numModes` and `lastSwitch` becomes `now`; then the tick
is delegated to `modes[curIndex]`.  The remainder is undefined for `numModes = 0`. -/
def RotatingMode.run {M : Type} (runMode : M → M) (r : RotatingMode M) (now : Nat) :
    Option (RotatingMode M) :=
  if r.rotateTime_ ≤ (now : Int) - (r.lastSwitch_ : Int) then
    match cRem (r.curIndex_ + 1) r.numModes_ with
    | none => none
    | some i => RotatingMode.delegate runMode { r with curIndex_ := i, lastSwitch_ := now }
  else RotatingMode.delegate runMode r

/-! ## Theorems -/

/-! ### Machine integers -/

theorem toBits_255 : toBits 255 = 2 ^ 8 - 1 := by decide

theorem wrapInt_emod_256 (x : Int) : wrapInt x % 256 = x % 256 := by
  unfold wrapInt
  omega

theorem toByte_bitAnd_255 (x : Int) : toByte (bitAnd x 255) = (x % 256).toNat := by
  unfold toByte bitAnd ofBits
  rw [wrapInt_emod_256, toBits_255]
  have h : Nat.land (toBits x) (2 ^ 8 - 1) = toBits x % 2 ^ 8 :=
    Nat.and_pow_two_sub_one_eq_mod (toBits x) 8
  rw [h]
  unfold toBits
  have h0 : 0 ≤ x % 4294967296 := Int.emod_nonneg x (by decide)
  have h1 : Int.ofNat ((x % 4294967296).toNat % 2 ^ 8) = (x % 4294967296) % 256 := by
    simp only [Int.ofNat_eq_coe, Nat.cast_ofNat, Int.natCast_mod, Int.toNat_of_nonneg h0]
    norm_num
  rw [h1]
  have h2 : (x % 4294967296) % 256 % 256 = x % 256 := by omega
  rw [h2]

theorem bitAnd_255_range (x : Int) : 0 ≤ bitAnd x 255 ∧ bitAnd x 255 ≤ 255 := by
  unfold bitAnd ofBits
  rw [toBits_255]
  have h : Nat.land (toBits x) (2 ^ 8 - 1) = toBits x % 2 ^ 8 :=
    Nat.and_pow_two_sub_one_eq_mod (toBits x) 8
  rw [h]
  have hlt : toBits x % 2 ^ 8 < 256 := Nat.mod_lt _ (by decide)
  unfold wrapInt
  simp only [Int.ofNat_eq_coe]
  omega

/-! ### MultiColorMapper -/

theorem cRem_of_nonneg (a b : Int) (ha : 0 ≤ a) (hb : 1 ≤ b) : cRem a b = some (a % b) := by
  unfold cRem
  have hb0 : b ≠ 0 := by omega
  have hb1 : ¬ (a = INT_MIN ∧ b = -1) := by
    rintro ⟨_, h⟩
    omega
  rw [if_neg hb0, if_neg hb1, Int.tmod_eq_emod ha (by omega)]

theorem subscript_of_lt {α : Type} (xs : List α) (i : Int) (h0 : 0 ≤ i)
    (h1 : i < xs.length) : ∃ c, xs[i.toNat]? = some c ∧ subscript xs i = some c := by
  have hlt : i.toNat < xs.length := by omega
  refine ⟨xs[i.toNat], List.getElem?_eq_getElem hlt, ?_⟩
  unfold subscript
  rw [if_pos h0, List.getElem?_eq_getElem hlt]

/-- C1: for a mapper whose colour array holds at least `numcolors >= 1` colours and
every index `>= 0`, `MultiColorMapper::PixelColor(index)` returns
`colors[index mod numcolors]` and leaves the mapper as it was; and the mapper built
from `[red, green, blue]` with `numcolors = 3` yields `[red, green, blue, red, green]`
on the indices `0..4`, again unchanged. -/
theorem MultiColorMapper_PixelColor_cycles (m : MultiColorMapper) (index : Int)
    (hn : 1 ≤ m._numcolors) (hlen : m._numcolors ≤ m._colors.length) (hi : 0 ≤ index) :
    (∃ c, m._colors[(index % m._numcolors).toNat]? = some c ∧
      m.PixelColor index = some (c, m)) ∧
    (∀ (config : deviceConfig_t) (red green blue : Nat),
      (MultiColorMapper.new config [red, green, blue] 3).calls (frameIndices 5) =
        some ([red, green, blue, red, green],
          MultiColorMapper.new config [red, green, blue] 3)) := by
  constructor
  · have hm0 : 0 ≤ index % m._numcolors := Int.emod_nonneg _ (by omega)
    have hm1 : index % m._numcolors < m._numcolors := Int.emod_lt_of_pos _ (by omega)
    obtain ⟨c, hc, hs⟩ := subscript_of_lt m._colors (index % m._numcolors) hm0 (by omega)
    refine ⟨c, hc, ?_⟩
    unfold MultiColorMapper.PixelColor
    rw [cRem_of_nonneg index m._numcolors hi hn]
    simp only [hs]
  · intro config red green blue
    rfl

/-- Witness of C1: the mapper over `[10, 20, 30]` at index 4. -/
theorem MultiColorMapper_PixelColor_cycles_witness :
    (∃ c, (MultiColorMapper.new ⟨0, 0, 0, 0, 0⟩ [10, 20, 30] 3)._colors[
        ((4 : Int) % (MultiColorMapper.new ⟨0, 0, 0, 0, 0⟩ [10, 20, 30] 3)._numcolors).toNat]?
          = some c ∧
      (MultiColorMapper.new ⟨0, 0, 0, 0, 0⟩ [10, 20, 30] 3).PixelColor 4 =
        some (c, MultiColorMapper.new ⟨0, 0, 0, 0, 0⟩ [10, 20, 30] 3)) ∧
    (∀ (config : deviceConfig_t) (red green blue : Nat),
      (MultiColorMapper.new config [red, green, blue] 3).calls (frameIndices 5) =
        some ([red, green, blue, red, green],
          MultiColorMapper.new config [red, green, blue] 3)) :=
  MultiColorMapper_PixelColor_cycles (MultiColorMapper.new ⟨0, 0, 0, 0, 0⟩ [10, 20, 30] 3) 4
    (by decide) (by decide) (by decide)

/-! ### SingleColorMapper -/

/-- C5: for every configuration `c` and every integer index,
`SingleColorMapper(c).PixelColor(index)` returns `c.color1` and leaves the mapper as
constructed, so every later call on the resulting mapper returns `c.color1` again. -/
theorem SingleColorMapper_PixelColor_const (c : deviceConfig_t) (index : Int) :
    (SingleColorMapper.new c).PixelColor index = (c.color1, SingleColorMapper.new c) ∧
    (∀ index2 : Int, (((SingleColorMapper.new c).PixelColor index).2).PixelColor index2 =
      (c.color1, SingleColorMapper.new c)) :=
  ⟨rfl, fun _ => rfl⟩

/-! ### RandomColorMapper -/

/-- C6: with the random source injected as a generator whose draw
`random(0, numcolors)` lies in `[0, numcolors)`, every call of
`RandomColorMapper::PixelColor(index)` on a mapper holding at least
`numcolors >= 1` colours takes exactly one draw `r`, leaving the generator in the
state that follows that draw, returns `colors[r]`, which is one of the first
`numcolors` colours, and leaves the mapper unchanged; the outcome is the same for
every other index. -/
theorem RandomColorMapper_PixelColor_resamples {G : Type}
    (random : Int → Int → G → Int × G) (m : RandomColorMapper) (index : Int) (g : G)
    (hn : 1 ≤ m._numcolors) (hlen : m._numcolors ≤ m._colors.length)
    (hr : ∀ g1 : G, 0 ≤ (random 0 m._numcolors g1).1 ∧
      (random 0 m._numcolors g1).1 < m._numcolors) :
    (∃ c, m._colors[(random 0 m._numcolors g).1.toNat]? = some c ∧
      c ∈ m._colors.take m._numcolors.toNat ∧
      RandomColorMapper.PixelColor random m index g =
        some (c, m, (random 0 m._numcolors g).2)) ∧
    (∀ index2 : Int, RandomColorMapper.PixelColor random m index2 g =
      RandomColorMapper.PixelColor random m index g) := by
  constructor
  · obtain ⟨h0, h1⟩ := hr g
    obtain ⟨c, hc, hs⟩ := subscript_of_lt m._colors (random 0 m._numcolors g).1 h0 (by omega)
    refine ⟨c, hc, ?_, ?_⟩
    · have hlt : (random 0 m._numcolors g).1.toNat < m._numcolors.toNat := by omega
      have ht : (m._colors.take m._numcolors.toNat)[(random 0 m._numcolors g).1.toNat]? =
          some c := by
        rw [List.getElem?_take_of_lt hlt, hc]
      exact List.getElem?_mem ht
    · unfold RandomColorMapper.PixelColor
      simp only [hs]
  · intro index2
    rfl

/-- Witness of C6: the generator is a counter, `random(lo, hi)` returns the counter
reduced into `[lo, hi)` and advances it by one. -/
theorem RandomColorMapper_PixelColor_resamples_witness :
    (∃ c, (RandomColorMapper.new ⟨0, 0, 0, 0, 0⟩ [10, 20, 30] 3)._colors[
        ((fun (lo hi : Int) (g : Nat) => (lo + (g : Int) % (hi - lo), g + 1)) 0
          (RandomColorMapper.new ⟨0, 0, 0, 0, 0⟩ [10, 20, 30] 3)._numcolors 5).1.toNat]?
          = some c ∧
      c ∈ (RandomColorMapper.new ⟨0, 0, 0, 0, 0⟩ [10, 20, 30] 3)._colors.take
        (RandomColorMapper.new ⟨0, 0, 0, 0, 0⟩ [10, 20, 30] 3)._numcolors.toNat ∧
      RandomColorMapper.PixelColor
        (fun (lo hi : Int) (g : Nat) => (lo + (g : Int) % (hi - lo), g + 1))
        (RandomColorMapper.new ⟨0, 0, 0, 0, 0⟩ [10, 20, 30] 3) 7 5 =
        some (c, RandomColorMapper.new ⟨0, 0, 0, 0, 0⟩ [10, 20, 30] 3,
          ((fun (lo hi : Int) (g : Nat) => (lo + (g : Int) % (hi - lo), g + 1)) 0
            (RandomColorMapper.new ⟨0, 0, 0, 0, 0⟩ [10, 20, 30] 3)._numcolors 5).2)) ∧
    (∀ index2 : Int, RandomColorMapper.PixelColor
        (fun (lo hi : Int) (g : Nat) => (lo + (g : Int) % (hi - lo), g + 1))
        (RandomColorMapper.new ⟨0, 0, 0, 0, 0⟩ [10, 20, 30] 3) index2 5 =
      RandomColorMapper.PixelColor
        (fun (lo hi : Int) (g : Nat) => (lo + (g : Int) % (hi - lo), g + 1))
        (RandomColorMapper.new ⟨0, 0, 0, 0, 0⟩ [10, 20, 30] 3) 7 5) :=
  RandomColorMapper_PixelColor_resamples
    (fun (lo hi : Int) (g : Nat) => (lo + (g : Int) % (hi - lo), g + 1))
    (RandomColorMapper.new ⟨0, 0, 0, 0, 0⟩ [10, 20, 30] 3) 7 5 (by decide) (by decide)
    (by
      intro g1
      show 0 ≤ 0 + (g1 : Int) % (3 - 0) ∧ 0 + (g1 : Int) % (3 - 0) < 3
      omega)

/-! ### Rainbow -/

theorem bitAnd_255 (x : Int) : bitAnd x 255 = x % 256 := by
  have h := toByte_bitAnd_255 x
  have hr := bitAnd_255_range x
  unfold toByte at h
  have hx : 0 ≤ x % 256 := Int.emod_nonneg x (by decide)
  have hb : 0 ≤ bitAnd x 255 % 256 := Int.emod_nonneg _ (by decide)
  have h2 : bitAnd x 255 % 256 = x % 256 := by
    have := congrArg Int.ofNat h
    simpa [Int.toNat_of_nonneg hx, Int.toNat_of_nonneg hb] using this
  omega

theorem Rainbow_wheel_arg (index w : Int) :
    toByte (bitAnd (wrapInt (index + w)) 255) = ((index + w) % 256).toNat := by
  rw [toByte_bitAnd_255, wrapInt_emod_256]

theorem Rainbow_advance_eq (r : Rainbow) (h0 : 0 ≤ r._wheel) (h1 : r._wheel < 256) :
    r.advance = { r with _wheel := (r._wheel + 1) % 256 } := by
  unfold Rainbow.advance
  have hw : wrapInt (r._wheel + 1) = r._wheel + 1 := by
    unfold wrapInt
    omega
  rw [hw, Int.tmod_eq_emod (by omega) (by decide)]

theorem Rainbow_PixelColor_zero (Wheel : Nat → Nat) (r : Rainbow) :
    Rainbow.PixelColor Wheel r 0 =
      (Wheel (((0 + r.advance._wheel) % 256).toNat), r.advance) := by
  unfold Rainbow.PixelColor
  simp only [if_true, Rainbow_wheel_arg]

theorem Rainbow_PixelColor_nonzero (Wheel : Nat → Nat) (r : Rainbow) (index : Int)
    (h : index ≠ 0) :
    Rainbow.PixelColor Wheel r index = (Wheel (((index + r._wheel) % 256).toNat), r) := by
  unfold Rainbow.PixelColor
  simp only [if_neg h, Rainbow_wheel_arg]

theorem Rainbow_calls_nonzero (Wheel : Nat → Nat) (r : Rainbow) (is : List Int)
    (h : ∀ i ∈ is, i ≠ 0) :
    Rainbow.calls Wheel r is =
      (is.map (fun i => Wheel (((i + r._wheel) % 256).toNat)), r) := by
  induction is with
  | nil => rfl
  | cons i rest ih =>
    have hi : i ≠ 0 := h i (List.mem_cons_self i rest)
    have hrest : ∀ j ∈ rest, j ≠ 0 := fun j hj => h j (List.mem_cons_of_mem i hj)
    unfold Rainbow.calls
    simp only [Rainbow_PixelColor_nonzero Wheel r i hi, ih hrest, List.map_cons]

theorem frameIndices_succ (n : Nat) :
    frameIndices (n + 1) = 0 :: (List.range n).map (fun i : Nat => ((i : Int) + 1)) := by
  unfold frameIndices
  rw [List.range_succ_eq_map, List.map_cons, List.map_map]
  rfl

theorem Rainbow_calls_frame (Wheel : Nat → Nat) (r : Rainbow) (n : Nat) :
    Rainbow.calls Wheel r (frameIndices (n + 1)) =
      ((frameIndices (n + 1)).map (fun i => Wheel (((i + r.advance._wheel) % 256).toNat)),
        r.advance) := by
  rw [frameIndices_succ]
  unfold Rainbow.calls
  rw [Rainbow_PixelColor_zero]
  have hnz : ∀ i ∈ (List.range n).map (fun i : Nat => ((i : Int) + 1)), i ≠ 0 := by
    intro i hi
    obtain ⟨j, _, hj⟩ := List.mem_map.mp hi
    have hj0 : (0 : Int) ≤ (j : Int) := Int.ofNat_nonneg j
    omega
  simp only [Rainbow_calls_nonzero Wheel r.advance _ hnz, List.map_cons]

theorem Rainbow_afterZeroCalls_eq (Wheel : Nat → Nat) (r : Rainbow) (h0 : 0 ≤ r._wheel)
    (h1 : r._wheel < 256) (k : Nat) :
    Rainbow.afterZeroCalls Wheel r k = { r with _wheel := (r._wheel + k) % 256 } := by
  induction k with
  | zero =>
    have hw : (r._wheel + ((0 : Nat) : Int)) % 256 = r._wheel := by omega
    rw [hw]
    rfl
  | succ k ih =>
    unfold Rainbow.afterZeroCalls
    rw [ih, Rainbow_PixelColor_zero]
    have ha0 : 0 ≤ (r._wheel + (k : Int)) % 256 := Int.emod_nonneg _ (by decide)
    have ha1 : (r._wheel + (k : Int)) % 256 < 256 := Int.emod_lt_of_pos _ (by decide)
    rw [Rainbow_advance_eq _ ha0 ha1]
    have hw : ((r._wheel + (k : Int)) % 256 + 1) % 256 =
        (r._wheel + ((k + 1 : Nat) : Int)) % 256 := by omega
    simp only [hw]

/-- C2: from any wheel offset `w` with `0 <= w < 256`, 256 consecutive calls of
`Rainbow::PixelColor(0)` bring the mapper back to the state it started in, call
`k` and call `k + 256` return the same colour for every `k`, and after `k` calls
with `0 < k < 256` the offset differs from `w`; `Wheel` is an arbitrary function of
a byte. -/
theorem Rainbow_period_256 (Wheel : Nat → Nat) (r : Rainbow) (h0 : 0 ≤ r._wheel)
    (h1 : r._wheel < 256) :
    Rainbow.afterZeroCalls Wheel r 256 = r ∧
    (∀ k : Nat, Rainbow.zeroCallColor Wheel r k = Rainbow.zeroCallColor Wheel r (k + 256)) ∧
    (∀ k : Nat, 0 < k → k < 256 → (Rainbow.afterZeroCalls Wheel r k)._wheel ≠ r._wheel) := by
  refine ⟨?_, ?_, ?_⟩
  · rw [Rainbow_afterZeroCalls_eq Wheel r h0 h1]
    have hw : (r._wheel + ((256 : Nat) : Int)) % 256 = r._wheel := by omega
    rw [hw]
  · intro k
    unfold Rainbow.zeroCallColor
    rw [Rainbow_afterZeroCalls_eq Wheel r h0 h1, Rainbow_afterZeroCalls_eq Wheel r h0 h1]
    have hw : (r._wheel + ((k + 256 : Nat) : Int)) % 256 = (r._wheel + (k : Int)) % 256 := by
      omega
    rw [hw]
  · intro k hk0 hk1
    rw [Rainbow_afterZeroCalls_eq Wheel r h0 h1]
    show (r._wheel + (k : Int)) % 256 ≠ r._wheel
    omega

/-- Witness of C2: the freshly constructed mapper, whose offset is 0. -/
theorem Rainbow_period_256_witness :
    Rainbow.afterZeroCalls (fun b => b) (Rainbow.new ⟨0, 0, 0, 0, 0⟩) 256 =
      Rainbow.new ⟨0, 0, 0, 0, 0⟩ ∧
    (∀ k : Nat, Rainbow.zeroCallColor (fun b => b) (Rainbow.new ⟨0, 0, 0, 0, 0⟩) k =
      Rainbow.zeroCallColor (fun b => b) (Rainbow.new ⟨0, 0, 0, 0, 0⟩) (k + 256)) ∧
    (∀ k : Nat, 0 < k → k < 256 →
      (Rainbow.afterZeroCalls (fun b => b) (Rainbow.new ⟨0, 0, 0, 0, 0⟩) k)._wheel ≠
        (Rainbow.new ⟨0, 0, 0, 0, 0⟩)._wheel) :=
  Rainbow_period_256 (fun b => b) (Rainbow.new ⟨0, 0, 0, 0, 0⟩) (by decide) (by decide)

/-- C3: in one frame of `Rainbow`, the calls `PixelColor(0), ..., PixelColor(n - 1)`
in increasing order, every returned colour, that of index 0 included, is
`Wheel((i + w) mod 256)` for one and the same offset `w`, the offset stored by the
call for index 0; and the argument `(index + _wheel) & 255` the code computes is
`(index + _wheel) mod 256` for all operands. -/
theorem Rainbow_frame_single_offset (Wheel : Nat → Nat) (r : Rainbow) (n : Nat) :
    (Rainbow.calls Wheel r (frameIndices n)).1 =
      (frameIndices n).map (fun i => Wheel (((i + r.advance._wheel) % 256).toNat)) ∧
    (Rainbow.PixelColor Wheel r 0).2._wheel = r.advance._wheel ∧
    (∀ index w : Int, bitAnd (wrapInt (index + w)) 255 = (index + w) % 256) := by
  refine ⟨?_, ?_, ?_⟩
  · cases n with
    | zero => rfl
    | succ n => rw [Rainbow_calls_frame]
  · rw [Rainbow_PixelColor_zero]
  · intro index w
    rw [bitAnd_255, wrapInt_emod_256]

/-- C4: `Rainbow::PixelColor(index)` leaves the mapper unchanged for every
`index != 0`; `PixelColor(0)` replaces an offset `w` with `0 <= w < 256` by
`(w + 1) mod 256` and changes nothing else; so a full frame over the indices
`0..n-1`, `n >= 1`, started at offset `w` ends with offset `(w + 1) mod 256`
whatever `n` is. -/
theorem Rainbow_offset_once_per_frame (Wheel : Nat → Nat) (r : Rainbow)
    (h0 : 0 ≤ r._wheel) (h1 : r._wheel < 256) :
    (∀ index : Int, index ≠ 0 → (Rainbow.PixelColor Wheel r index).2 = r) ∧
    (Rainbow.PixelColor Wheel r 0).2 = { r with _wheel := (r._wheel + 1) % 256 } ∧
    (∀ n : Nat, (Rainbow.calls Wheel r (frameIndices (n + 1))).2 =
      { r with _wheel := (r._wheel + 1) % 256 }) := by
  refine ⟨?_, ?_, ?_⟩
  · intro index hne
    rw [Rainbow_PixelColor_nonzero Wheel r index hne]
  · rw [Rainbow_PixelColor_zero, Rainbow_advance_eq r h0 h1]
  · intro n
    rw [Rainbow_calls_frame, Rainbow_advance_eq r h0 h1]

/-- Witness of C4: the mapper with offset 255, which a frame takes back to 0. -/
theorem Rainbow_offset_once_per_frame_witness :
    (∀ index : Int, index ≠ 0 →
      (Rainbow.PixelColor (fun b => b) { Rainbow.new ⟨0, 0, 0, 0, 0⟩ with _wheel := 255 }
        index).2 = { Rainbow.new ⟨0, 0, 0, 0, 0⟩ with _wheel := 255 }) ∧
    (Rainbow.PixelColor (fun b => b) { Rainbow.new ⟨0, 0, 0, 0, 0⟩ with _wheel := 255 } 0).2 =
      { Rainbow.new ⟨0, 0, 0, 0, 0⟩ with _wheel := (255 + 1) % 256 } ∧
    (∀ n : Nat,
      (Rainbow.calls (fun b => b) { Rainbow.new ⟨0, 0, 0, 0, 0⟩ with _wheel := 255 }
        (frameIndices (n + 1))).2 =
      { Rainbow.new ⟨0, 0, 0, 0, 0⟩ with _wheel := (255 + 1) % 256 }) :=
  Rainbow_offset_once_per_frame (fun b => b)
    { Rainbow.new ⟨0, 0, 0, 0, 0⟩ with _wheel := 255 } (by decide) (by decide)

/-! ### Construction with an empty colour array or mode list -/

theorem cRem_zero (a : Int) : cRem a 0 = none := by
  unfold cRem
  rw [if_pos rfl]

/-- C7, counterexample: constructing a `MultiColorMapper` or a `RandomColorMapper`
with `numcolors = 0` yields a mapper that stores `_numcolors = 0`, and on that
`MultiColorMapper` the call `PixelColor(0)`, which computes `0 % 0`, has no defined
result. -/
theorem MultiColorMapper_numcolors_zero_constructed :
    (MultiColorMapper.new ⟨0, 0, 0, 0, 0⟩ [] 0)._numcolors = 0 ∧
    (MultiColorMapper.new ⟨0, 0, 0, 0, 0⟩ [] 0).PixelColor 0 = none ∧
    (RandomColorMapper.new ⟨0, 0, 0, 0, 0⟩ [] 0)._numcolors = 0 :=
  ⟨rfl, rfl, rfl⟩

/-- C7, amended: the constructors check nothing.  For every configuration, colour
array and `numcolors`, zero included, `MultiColorMapper` and `RandomColorMapper` are
constructed with the array and the count stored as given; on a `MultiColorMapper`
constructed with `numcolors = 0` the call `PixelColor(index)` computes `index % 0`
and has no defined result, for every index. -/
theorem MultiColorMapper_construction_unchecked (config : deviceConfig_t)
    (colors : List Nat) (numcolors : Int) :
    (MultiColorMapper.new config colors numcolors)._numcolors = numcolors ∧
    (MultiColorMapper.new config colors numcolors)._colors = colors ∧
    (RandomColorMapper.new config colors numcolors).toMultiColorMapper =
      MultiColorMapper.new config colors numcolors ∧
    (∀ index : Int, (MultiColorMapper.new config colors 0).PixelColor index = none) := by
  refine ⟨rfl, rfl, rfl, ?_⟩
  intro index
  show (match cRem index 0 with
    | none => none
    | some i =>
      match subscript colors i with
      | none => none
      | some c => some (c, MultiColorMapper.new config colors 0)) = none
  rw [cRem_zero]

/-- C8, counterexample: constructing a `RotatingMode` over the empty mode list with
`numModes = 0` yields a mode that stores `numModes_ = 0`, whose `curIndex_ = 0` is
not below `numModes_`. -/
theorem RotatingMode_empty_constructed :
    (RotatingMode.new ([] : List Nat) 0 1000).numModes_ = 0 ∧
    ¬ ((RotatingMode.new ([] : List Nat) 0 1000).curIndex_ <
      (RotatingMode.new ([] : List Nat) 0 1000).numModes_) := by
  decide

/-- C8, amended: the constructor of `RotatingMode` checks nothing.  For every mode
array, `numModes` and `rotateTime` it stores the three as given and sets
`curIndex_ = 0` and `lastSwitch_ = 0`; the constructed mode satisfies
`numModes >= 1` and `0 <= curIndex < numModes` exactly when it was given
`numModes >= 1`. -/
theorem RotatingMode_construction_unchecked {M : Type} (modes : List M)
    (numModes rotateTime : Int) :
    (RotatingMode.new modes numModes rotateTime).modes_ = modes ∧
    (RotatingMode.new modes numModes rotateTime).numModes_ = numModes ∧
    (RotatingMode.new modes numModes rotateTime).rotateTime_ = rotateTime ∧
    (RotatingMode.new modes numModes rotateTime).curIndex_ = 0 ∧
    (RotatingMode.new modes numModes rotateTime).lastSwitch_ = 0 ∧
    ((1 ≤ (RotatingMode.new modes numModes rotateTime).numModes_ ∧
      0 ≤ (RotatingMode.new modes numModes rotateTime).curIndex_ ∧
      (RotatingMode.new modes numModes rotateTime).curIndex_ <
        (RotatingMode.new modes numModes rotateTime).numModes_) ↔ 1 ≤ numModes) := by
  refine ⟨rfl, rfl, rfl, rfl, rfl, ?_⟩
  show (1 ≤ numModes ∧ (0 : Int) ≤ 0 ∧ 0 < numModes) ↔ 1 ≤ numModes
  omega

/-! ### Rain -/

/-- C9, counterexample: with `minValue = 1 <= maxValue = 2` the constructed mapper
stores the value 0 at pixel 0, which is below `minValue`. -/
theorem Rain_initial_value_below_minValue :
    (1 : ℚ) ≤ 2 ∧
    ∃ p : RainPixel,
      (Rain.new 8 ⟨0, 0, 0, 0, 0⟩ () 3 1 2 1 1 1 1 false false)._state[0]? = some p ∧
      ¬ ((Rain.new 8 ⟨0, 0, 0, 0, 0⟩ () 3 1 2 1 1 1 1 false false)._minValue ≤ p.value) := by
  refine ⟨by norm_num, { color := none, value := 0, growing := false }, rfl, ?_⟩
  show ¬ ((1 : ℚ) ≤ 0)
  norm_num

/-- C9, amended: right after construction every `_state[i]`, `0 <= i < MAX_PIXELS`,
has `value = 0` and `growing = false`, whatever the constructor arguments are; the
stored value therefore lies in `[minValue, maxValue]` exactly when
`minValue <= 0 <= maxValue`. -/
theorem Rain_initial_state {M : Type} (MAX_PIXELS : Nat) (config : deviceConfig_t)
    (mapper : M) (maxdrops : Int)
    (initValue maxValue minValue growSpeed fadeSpeed fadeProb : ℚ) (multi randInit : Bool)
    (i : Nat) (hi : i < MAX_PIXELS) :
    ∃ p : RainPixel,
      (Rain.new MAX_PIXELS config mapper maxdrops initValue maxValue minValue growSpeed
        fadeSpeed fadeProb multi randInit)._state[i]? = some p ∧
      p.value = 0 ∧ p.growing = false ∧
      ((minValue ≤ p.value ∧ p.value ≤ maxValue) ↔ (minValue ≤ 0 ∧ 0 ≤ maxValue)) := by
  refine ⟨{ color := none, value := 0, growing := false }, ?_, rfl, rfl, Iff.rfl⟩
  show (List.replicate MAX_PIXELS
    ({ color := none, value := 0, growing := false } : RainPixel))[i]? = _
  rw [List.getElem?_replicate_of_lt hi]

/-- Witness of C9, amended: pixel 5 of a mapper over 8 pixels with
`minValue = 1` and `maxValue = 2`. -/
theorem Rain_initial_state_witness :
    ∃ p : RainPixel,
      (Rain.new 8 ⟨0, 0, 0, 0, 0⟩ () 3 1 2 1 1 1 1 false false)._state[5]? = some p ∧
      p.value = 0 ∧ p.growing = false ∧
      (((1 : ℚ) ≤ p.value ∧ p.value ≤ 2) ↔ ((1 : ℚ) ≤ 0 ∧ (0 : ℚ) ≤ 2)) :=
  Rain_initial_state 8 ⟨0, 0, 0, 0, 0⟩ () 3 1 2 1 1 1 1 false false 5 (by decide)

/-- C11: for `minBrightness <= maxBrightness`, as exact rationals, and every `i` with
`0 <= i < MAX_PIXELS`, the constructed `_brightness[i]` is
`minBrightness + (maxBrightness - minBrightness) / 2`, which equals
`(minBrightness + maxBrightness) / 2`, and lies in `[minBrightness, maxBrightness]`. -/
theorem Twinkler_initial_brightness {M : Type} (MAX_PIXELS : Nat) (config : deviceConfig_t)
    (mapper : M) (stepRange : Int) (minBrightness maxBrightness : ℚ) (i : Nat)
    (hle : minBrightness ≤ maxBrightness) (hi : i < MAX_PIXELS) :
    ∃ b : ℚ,
      (Twinkler.new MAX_PIXELS config mapper stepRange minBrightness
        maxBrightness)._pixelBrightness[i]? = some b ∧
      b = minBrightness + (maxBrightness - minBrightness) / 2 ∧
      b = (minBrightness + maxBrightness) / 2 ∧
      minBrightness ≤ b ∧ b ≤ maxBrightness := by
  refine ⟨minBrightness + (maxBrightness - minBrightness) / 2, ?_, rfl, ?_, ?_, ?_⟩
  · show (List.replicate MAX_PIXELS
      (minBrightness + (maxBrightness - minBrightness) / 2))[i]? = _
    rw [List.getElem?_replicate_of_lt hi]
  · ring
  · linarith
  · linarith

/-- Witness of C11: pixel 2 of a twinkler over 8 pixels with brightness range
`[0, 1]`. -/
theorem Twinkler_initial_brightness_witness :
    ∃ b : ℚ,
      (Twinkler.new 8 ⟨0, 0, 0, 0, 0⟩ () 5 0 1)._pixelBrightness[2]? = some b ∧
      b = 0 + (1 - 0) / 2 ∧ b = (0 + 1) / 2 ∧ 0 ≤ b ∧ b ≤ 1 :=
  Twinkler_initial_brightness 8 ⟨0, 0, 0, 0, 0⟩ () 5 0 1 2 zero_le_one (by decide)

/-! ### Runner -/

/-- C13: a `Runner` constructed on a strip of `n >= 1` pixels has its heads at 0
and at `n / 2` rounded down; both heads lie in `[0, n)`, and they differ exactly
when `n >= 2`. -/
theorem Runner_initial_heads (n : Int) (config : deviceConfig_t) (tail direction : Int)
    (hn : 1 ≤ n) :
    (Runner.new n config tail direction)._head1 = 0 ∧
    (Runner.new n config tail direction)._head2 = n / 2 ∧
    (0 ≤ (Runner.new n config tail direction)._head1 ∧
      (Runner.new n config tail direction)._head1 < n) ∧
    (0 ≤ (Runner.new n config tail direction)._head2 ∧
      (Runner.new n config tail direction)._head2 < n) ∧
    ((Runner.new n config tail direction)._head1 ≠
      (Runner.new n config tail direction)._head2 ↔ 2 ≤ n) := by
  have h2 : (Runner.new n config tail direction)._head2 = n / 2 :=
    Int.tdiv_eq_ediv (by omega) (by decide)
  have h1 : (Runner.new n config tail direction)._head1 = 0 := rfl
  rw [h1, h2]
  refine ⟨rfl, rfl, ⟨le_refl 0, by omega⟩, ⟨by omega, by omega⟩, ?_⟩
  constructor
  · intro hne
    by_contra hlt
    apply hne
    omega
  · intro hge
    omega

/-- Witness of C13: a strip of 5 pixels, heads at 0 and 2. -/
theorem Runner_initial_heads_witness :
    (Runner.new 5 ⟨0, 0, 0, 0, 0⟩ 3 1)._head1 = 0 ∧
    (Runner.new 5 ⟨0, 0, 0, 0, 0⟩ 3 1)._head2 = 5 / 2 ∧
    (0 ≤ (Runner.new 5 ⟨0, 0, 0, 0, 0⟩ 3 1)._head1 ∧
      (Runner.new 5 ⟨0, 0, 0, 0, 0⟩ 3 1)._head1 < 5) ∧
    (0 ≤ (Runner.new 5 ⟨0, 0, 0, 0, 0⟩ 3 1)._head2 ∧
      (Runner.new 5 ⟨0, 0, 0, 0, 0⟩ 3 1)._head2 < 5) ∧
    ((Runner.new 5 ⟨0, 0, 0, 0, 0⟩ 3 1)._head1 ≠
      (Runner.new 5 ⟨0, 0, 0, 0, 0⟩ 3 1)._head2 ↔ (2 : Int) ≤ 5) :=
  Runner_initial_heads 5 ⟨0, 0, 0, 0, 0⟩ 3 1 (by decide)

/-! ### MultiColorMapper: the subscript -/

theorem cRem_of_pos_divisor (a b : Int) (hb : 1 ≤ b) : cRem a b = some (Int.tmod a b) := by
  unfold cRem
  have hb0 : b ≠ 0 := by omega
  have hb1 : ¬ (a = INT_MIN ∧ b = -1) := by
    rintro ⟨_, h⟩
    omega
  rw [if_neg hb0, if_neg hb1]

theorem tmod_negative (a b : Int) (ha : a < 0) (hb : 1 ≤ b) (hnd : ¬ b ∣ a) :
    Int.tmod a b < 0 ∧ -b < Int.tmod a b := by
  have hne : Int.tmod a b ≠ 0 := fun h => hnd (Int.dvd_of_tmod_eq_zero h)
  obtain ⟨m, rfl⟩ := Int.eq_negSucc_of_lt_zero ha
  obtain ⟨k, rfl⟩ := Int.eq_ofNat_of_zero_le (show 0 ≤ b by omega)
  have hdef : Int.tmod (Int.negSucc m) (k : Int) = -(((m + 1) % k : Nat) : Int) := rfl
  rw [hdef] at hne ⊢
  have hk : 0 < k := by omega
  have hlt : (m + 1) % k < k := Nat.mod_lt _ hk
  omega

/-- C15: for `numcolors >= 1` and every `index >= 0`, the subscript
`index % numcolors` computed by `MultiColorMapper::PixelColor` satisfies
`0 <= index % numcolors < numcolors`, the call returns what the array holds at that
subscript, and when the array has at least `numcolors` elements that is an element
of the array; for every negative index that `numcolors` does not divide the
subscript is negative (above `-numcolors`), outside the array, and the call has
no defined result. -/
theorem MultiColorMapper_subscript_bounds (m : MultiColorMapper) (hn : 1 ≤ m._numcolors) :
    (∀ index : Int, 0 ≤ index →
      ∃ i, cRem index m._numcolors = some i ∧ 0 ≤ i ∧ i < m._numcolors ∧
        m.PixelColor index = (subscript m._colors i).map (fun c => (c, m)) ∧
        (m._numcolors ≤ m._colors.length →
          ∃ c, m._colors[i.toNat]? = some c ∧ m.PixelColor index = some (c, m))) ∧
    (∀ neg : Int, neg < 0 → ¬ m._numcolors ∣ neg →
      ∃ i, cRem neg m._numcolors = some i ∧ i < 0 ∧ -m._numcolors < i ∧
        subscript m._colors i = none ∧ m.PixelColor neg = none) := by
  constructor
  · intro index hi
    have hc := cRem_of_nonneg index m._numcolors hi hn
    have hm0 : 0 ≤ index % m._numcolors := Int.emod_nonneg _ (by omega)
    have hm1 : index % m._numcolors < m._numcolors := Int.emod_lt_of_pos _ (by omega)
    have hpc : m.PixelColor index =
        (subscript m._colors (index % m._numcolors)).map (fun c => (c, m)) := by
      unfold MultiColorMapper.PixelColor
      rw [hc]
      cases hsub : subscript m._colors (index % m._numcolors) with
      | none => simp only [hsub, Option.map_none']
      | some c => simp only [hsub, Option.map_some']
    refine ⟨index % m._numcolors, hc, hm0, hm1, hpc, ?_⟩
    intro hlen
    obtain ⟨c, hget, hs⟩ := subscript_of_lt m._colors (index % m._numcolors) hm0 (by omega)
    refine ⟨c, hget, ?_⟩
    rw [hpc, hs]
    rfl
  · intro neg hneg hnd
    obtain ⟨h1, h2⟩ := tmod_negative neg m._numcolors hneg hn hnd
    have hsub : subscript m._colors (Int.tmod neg m._numcolors) = none := by
      unfold subscript
      rw [if_neg (by omega)]
    refine ⟨Int.tmod neg m._numcolors, cRem_of_pos_divisor neg m._numcolors hn, h1, h2,
      hsub, ?_⟩
    unfold MultiColorMapper.PixelColor
    rw [cRem_of_pos_divisor neg m._numcolors hn]
    simp only [hsub]

/-- Witness of C15: the mapper over `[10, 20, 30]` at the indices 4 and -1, and the
mapper over the single colour `[10]` at index 7. -/
theorem MultiColorMapper_subscript_bounds_witness :
    (∃ i, cRem (4 : Int) (MultiColorMapper.new ⟨0, 0, 0, 0, 0⟩ [10, 20, 30] 3)._numcolors = some i ∧
      0 ≤ i ∧ i < (MultiColorMapper.new ⟨0, 0, 0, 0, 0⟩ [10, 20, 30] 3)._numcolors ∧
      (MultiColorMapper.new ⟨0, 0, 0, 0, 0⟩ [10, 20, 30] 3).PixelColor (4 : Int) =
        (subscript (MultiColorMapper.new ⟨0, 0, 0, 0, 0⟩ [10, 20, 30] 3)._colors i).map
          (fun c => (c, (MultiColorMapper.new ⟨0, 0, 0, 0, 0⟩ [10, 20, 30] 3))) ∧
      ((MultiColorMapper.new ⟨0, 0, 0, 0, 0⟩ [10, 20, 30] 3)._numcolors ≤
          (MultiColorMapper.new ⟨0, 0, 0, 0, 0⟩ [10, 20, 30] 3)._colors.length →
        ∃ c, (MultiColorMapper.new ⟨0, 0, 0, 0, 0⟩ [10, 20, 30] 3)._colors[i.toNat]? = some c ∧
          (MultiColorMapper.new ⟨0, 0, 0, 0, 0⟩ [10, 20, 30] 3).PixelColor (4 : Int) =
            some (c, (MultiColorMapper.new ⟨0, 0, 0, 0, 0⟩ [10, 20, 30] 3)))) ∧
    (∃ i, cRem (-1 : Int) (MultiColorMapper.new ⟨0, 0, 0, 0, 0⟩ [10, 20, 30] 3)._numcolors = some i ∧
      i < 0 ∧ -(MultiColorMapper.new ⟨0, 0, 0, 0, 0⟩ [10, 20, 30] 3)._numcolors < i ∧
      subscript (MultiColorMapper.new ⟨0, 0, 0, 0, 0⟩ [10, 20, 30] 3)._colors i = none ∧
      (MultiColorMapper.new ⟨0, 0, 0, 0, 0⟩ [10, 20, 30] 3).PixelColor (-1 : Int) = none) ∧
    (∃ i, cRem (7 : Int) (MultiColorMapper.new ⟨0, 0, 0, 0, 0⟩ [10] 1)._numcolors = some i ∧
      0 ≤ i ∧ i < (MultiColorMapper.new ⟨0, 0, 0, 0, 0⟩ [10] 1)._numcolors ∧
      (MultiColorMapper.new ⟨0, 0, 0, 0, 0⟩ [10] 1).PixelColor (7 : Int) =
        (subscript (MultiColorMapper.new ⟨0, 0, 0, 0, 0⟩ [10] 1)._colors i).map
          (fun c => (c, (MultiColorMapper.new ⟨0, 0, 0, 0, 0⟩ [10] 1))) ∧
      ((MultiColorMapper.new ⟨0, 0, 0, 0, 0⟩ [10] 1)._numcolors ≤
          (MultiColorMapper.new ⟨0, 0, 0, 0, 0⟩ [10] 1)._colors.length →
        ∃ c, (MultiColorMapper.new ⟨0, 0, 0, 0, 0⟩ [10] 1)._colors[i.toNat]? = some c ∧
          (MultiColorMapper.new ⟨0, 0, 0, 0, 0⟩ [10] 1).PixelColor (7 : Int) =
            some (c, (MultiColorMapper.new ⟨0, 0, 0, 0, 0⟩ [10] 1)))) :=
  ⟨(MultiColorMapper_subscript_bounds (MultiColorMapper.new ⟨0, 0, 0, 0, 0⟩ [10, 20, 30] 3) (by decide)).1 4 (by decide),
    (MultiColorMapper_subscript_bounds (MultiColorMapper.new ⟨0, 0, 0, 0, 0⟩ [10, 20, 30] 3) (by decide)).2 (-1)
      (by decide) (by decide),
    (MultiColorMapper_subscript_bounds (MultiColorMapper.new ⟨0, 0, 0, 0, 0⟩ [10] 1) (by decide)).1 7 (by decide)⟩

/-! ### Rainbow: the offset is a byte -/

theorem Rainbow_advance_range (r : Rainbow) (h0 : 0 ≤ r._wheel) (h1 : r._wheel < 256) :
    0 ≤ r.advance._wheel ∧ r.advance._wheel < 256 := by
  rw [Rainbow_advance_eq r h0 h1]
  show 0 ≤ (r._wheel + 1) % 256 ∧ (r._wheel + 1) % 256 < 256
  omega

theorem Rainbow_PixelColor_range (Wheel : Nat → Nat) (r : Rainbow) (index : Int)
    (h0 : 0 ≤ r._wheel) (h1 : r._wheel < 256) :
    0 ≤ (Rainbow.PixelColor Wheel r index).2._wheel ∧
      (Rainbow.PixelColor Wheel r index).2._wheel < 256 := by
  by_cases hz : index = 0
  · subst hz
    rw [Rainbow_PixelColor_zero]
    exact Rainbow_advance_range r h0 h1
  · rw [Rainbow_PixelColor_nonzero Wheel r index hz]
    exact ⟨h0, h1⟩

theorem Rainbow_calls_range (Wheel : Nat → Nat) (is : List Int) :
    ∀ r : Rainbow, 0 ≤ r._wheel → r._wheel < 256 →
      0 ≤ (Rainbow.calls Wheel r is).2._wheel ∧ (Rainbow.calls Wheel r is).2._wheel < 256 := by
  induction is with
  | nil =>
    intro r h0 h1
    exact ⟨h0, h1⟩
  | cons i rest ih =>
    intro r h0 h1
    obtain ⟨g0, g1⟩ := Rainbow_PixelColor_range Wheel r i h0 h1
    exact ih (Rainbow.PixelColor Wheel r i).2 g0 g1

/-- C14: the wheel offset of `Rainbow` is a byte: `0 <= _wheel < 256` holds after
construction and after every sequence of calls `PixelColor(index)`, whatever the
indices (zero, positive or negative) and their order; the argument
`(index + _wheel) & 255` passed to `Wheel` lies in `[0, 255]` for all operands, and
the sum the code forms is the exact sum whenever that does not overflow. -/
theorem Rainbow_wheel_is_byte (Wheel : Nat → Nat) (config : deviceConfig_t)
    (is : List Int) :
    (0 ≤ (Rainbow.new config)._wheel ∧ (Rainbow.new config)._wheel < 256) ∧
    (0 ≤ (Rainbow.calls Wheel (Rainbow.new config) is).2._wheel ∧
      (Rainbow.calls Wheel (Rainbow.new config) is).2._wheel < 256) ∧
    (∀ index w : Int, 0 ≤ bitAnd (wrapInt (index + w)) 255 ∧
      bitAnd (wrapInt (index + w)) 255 ≤ 255) ∧
    (∀ index w : Int, INT_MIN ≤ index + w → index + w ≤ INT_MAX →
      wrapInt (index + w) = index + w) := by
  have hnew : 0 ≤ (Rainbow.new config)._wheel ∧ (Rainbow.new config)._wheel < 256 := by
    show (0 : Int) ≤ 0 ∧ (0 : Int) < 256
    omega
  refine ⟨hnew, Rainbow_calls_range Wheel is _ hnew.1 hnew.2, ?_, ?_⟩
  · intro index w
    exact bitAnd_255_range _
  · intro index w hlo hhi
    unfold INT_MIN at hlo
    unfold INT_MAX at hhi
    unfold wrapInt
    omega

/-! ### Rainbow: frame by frame -/

theorem Rainbow_afterFrames_eq (Wheel : Nat → Nat) (r : Rainbow) (h0 : 0 ≤ r._wheel)
    (h1 : r._wheel < 256) (n k : Nat) :
    Rainbow.afterFrames Wheel r (n + 1) k = { r with _wheel := (r._wheel + k) % 256 } := by
  induction k with
  | zero =>
    have hw : (r._wheel + ((0 : Nat) : Int)) % 256 = r._wheel := by omega
    rw [hw]
    rfl
  | succ k ih =>
    unfold Rainbow.afterFrames
    rw [ih, Rainbow_calls_frame]
    have ha0 : 0 ≤ (r._wheel + (k : Int)) % 256 := Int.emod_nonneg _ (by decide)
    have ha1 : (r._wheel + (k : Int)) % 256 < 256 := Int.emod_lt_of_pos _ (by decide)
    rw [Rainbow_advance_eq _ ha0 ha1]
    have hw : ((r._wheel + (k : Int)) % 256 + 1) % 256 =
        (r._wheel + ((k + 1 : Nat) : Int)) % 256 := by omega
    simp only [hw]

theorem Rainbow_frameColors_eq (Wheel : Nat → Nat) (r : Rainbow) (h0 : 0 ≤ r._wheel)
    (h1 : r._wheel < 256) (n k : Nat) :
    Rainbow.frameColors Wheel r (n + 1) k =
      (frameIndices (n + 1)).map
        (fun i => Wheel (((i + (r._wheel + (k : Int) + 1)) % 256).toNat)) := by
  unfold Rainbow.frameColors
  rw [Rainbow_afterFrames_eq Wheel r h0 h1, Rainbow_calls_frame]
  have ha0 : 0 ≤ (r._wheel + (k : Int)) % 256 := Int.emod_nonneg _ (by decide)
  have ha1 : (r._wheel + (k : Int)) % 256 < 256 := Int.emod_lt_of_pos _ (by decide)
  rw [Rainbow_advance_eq _ ha0 ha1]
  apply List.map_congr_left
  intro i _
  have hw : (i + ((r._wheel + (k : Int)) % 256 + 1) % 256) % 256 =
      (i + (r._wheel + (k : Int) + 1)) % 256 := by omega
  simp only [hw]

theorem frameIndices_getElem (n j : Nat) (h : j < n) :
    (frameIndices n)[j]? = some (j : Int) := by
  unfold frameIndices
  rw [List.getElem?_map, List.getElem?_range h]
  rfl

theorem Rainbow_frameColors_getElem (Wheel : Nat → Nat) (r : Rainbow) (h0 : 0 ≤ r._wheel)
    (h1 : r._wheel < 256) (n k j : Nat) (hj : j < n) :
    (Rainbow.frameColors Wheel r n k)[j]? =
      some (Wheel ((((j : Int) + (r._wheel + (k : Int) + 1)) % 256).toNat)) := by
  cases n with
  | zero => omega
  | succ n =>
    rw [Rainbow_frameColors_eq Wheel r h0 h1, List.getElem?_map, frameIndices_getElem _ _ hj]
    rfl

/-- C16: `Rainbow` advances its offset before it computes the colour of pixel 0, so
on a strip of `n >= 1` pixels frame number `f >= 1` after construction renders pixel
`i` as `Wheel((i + f) mod 256)`; the first frame shows pixel 0 as `Wheel(1)`; the
offset in use during frame `f`, which is the one stored once the frame is done, is
`f mod 256`, so it is not 0 in the frames 1 to 255 and is 0 in frame 256, where
pixel 0 is `Wheel(0)`. -/
theorem Rainbow_frame_number_offset (Wheel : Nat → Nat) (config : deviceConfig_t)
    (n f : Nat) (hn : 1 ≤ n) (hf : 1 ≤ f) :
    Rainbow.frameColors Wheel (Rainbow.new config) n (f - 1) =
      (frameIndices n).map (fun i => Wheel (((i + ((f : Nat) : Int)) % 256).toNat)) ∧
    (Rainbow.frameColors Wheel (Rainbow.new config) n 0)[0]? = some (Wheel 1) ∧
    (Rainbow.afterFrames Wheel (Rainbow.new config) n f)._wheel = ((f : Nat) : Int) % 256 ∧
    (∀ g : Nat, 1 ≤ g → g < 256 →
      (Rainbow.afterFrames Wheel (Rainbow.new config) n g)._wheel ≠ 0) ∧
    (Rainbow.afterFrames Wheel (Rainbow.new config) n 256)._wheel = 0 ∧
    (Rainbow.frameColors Wheel (Rainbow.new config) n 255)[0]? = some (Wheel 0) := by
  obtain ⟨m, rfl⟩ : ∃ m, n = m + 1 := ⟨n - 1, by omega⟩
  have h0 : (0 : Int) ≤ (Rainbow.new config)._wheel := le_refl 0
  have h1 : (Rainbow.new config)._wheel < 256 := by
    show (0 : Int) < 256
    omega
  have hw : (Rainbow.new config)._wheel = 0 := rfl
  refine ⟨?_, ?_, ?_, ?_, ?_, ?_⟩
  · rw [Rainbow_frameColors_eq Wheel _ h0 h1, hw]
    have hf1 : (0 : Int) + ((f - 1 : Nat) : Int) + 1 = (f : Int) := by omega
    rw [hf1]
  · rw [Rainbow_frameColors_getElem Wheel _ h0 h1 _ _ _ (Nat.succ_pos m), hw]
    rfl
  · rw [Rainbow_afterFrames_eq Wheel _ h0 h1, hw]
    show ((0 : Int) + (f : Int)) % 256 = (f : Int) % 256
    rw [Int.zero_add]
  · intro g hg0 hg1
    rw [Rainbow_afterFrames_eq Wheel _ h0 h1, hw]
    show ((0 : Int) + (g : Int)) % 256 ≠ 0
    omega
  · rw [Rainbow_afterFrames_eq Wheel _ h0 h1, hw]
    rfl
  · rw [Rainbow_frameColors_getElem Wheel _ h0 h1 _ _ _ (Nat.succ_pos m), hw]
    rfl

/-- Witness of C16: frame 3 on a strip of 5 pixels. -/
theorem Rainbow_frame_number_offset_witness :
    Rainbow.frameColors (fun b => b) (Rainbow.new ⟨0, 0, 0, 0, 0⟩) 5 (3 - 1) =
      (frameIndices 5).map (fun i => (fun b => b) (((i + ((3 : Nat) : Int)) % 256).toNat)) ∧
    (Rainbow.frameColors (fun b => b) (Rainbow.new ⟨0, 0, 0, 0, 0⟩) 5 0)[0]? = some ((fun b => b) 1) ∧
    (Rainbow.afterFrames (fun b => b) (Rainbow.new ⟨0, 0, 0, 0, 0⟩) 5 3)._wheel = ((3 : Nat) : Int) % 256 ∧
    (∀ g : Nat, 1 ≤ g → g < 256 →
      (Rainbow.afterFrames (fun b => b) (Rainbow.new ⟨0, 0, 0, 0, 0⟩) 5 g)._wheel ≠ 0) ∧
    (Rainbow.afterFrames (fun b => b) (Rainbow.new ⟨0, 0, 0, 0, 0⟩) 5 256)._wheel = 0 ∧
    (Rainbow.frameColors (fun b => b) (Rainbow.new ⟨0, 0, 0, 0, 0⟩) 5 255)[0]? = some ((fun b => b) 0) :=
  Rainbow_frame_number_offset (fun b => b) ⟨0, 0, 0, 0, 0⟩ 5 3 (by decide) (by decide)

/-- C17: the pattern of `Rainbow` moves by one pixel per frame: from every starting
offset in `[0, 256)`, on every strip of `n` pixels and for every `i` with
`i + 1 < n`, which is every pixel but the last of every strip of `n >= 2` pixels,
the colour returned for pixel `i` in one frame is the colour returned
for pixel `i + 1` in the frame before; the frames are counted from the starting
state, frame `f` being the one that follows `f` complete frames. -/
theorem Rainbow_scrolls_one_pixel (Wheel : Nat → Nat) (r : Rainbow) (n f i : Nat)
    (h0 : 0 ≤ r._wheel) (h1 : r._wheel < 256) (hi : i + 1 < n) :
    ∃ c : Nat, (Rainbow.frameColors Wheel r n (f + 1))[i]? = some c ∧
      (Rainbow.frameColors Wheel r n f)[i + 1]? = some c := by
  have hi0 : i < n := by omega
  refine ⟨_, Rainbow_frameColors_getElem Wheel r h0 h1 n (f + 1) i hi0, ?_⟩
  rw [Rainbow_frameColors_getElem Wheel r h0 h1 n f (i + 1) hi]
  have hw : (((i + 1 : Nat) : Int) + (r._wheel + (f : Int) + 1)) % 256 =
      ((i : Int) + (r._wheel + ((f + 1 : Nat) : Int) + 1)) % 256 := by
    have hc : (((i + 1 : Nat) : Int) + (r._wheel + (f : Int) + 1)) =
        ((i : Int) + (r._wheel + ((f + 1 : Nat) : Int) + 1)) := by omega
    rw [hc]
  rw [hw]

/-- Witness of C17: pixel 2 of a strip of 5 pixels, frames 7 and 8, starting from
offset 255. -/
theorem Rainbow_scrolls_one_pixel_witness :
    ∃ c : Nat, (Rainbow.frameColors (fun b => b) { Rainbow.new ⟨0, 0, 0, 0, 0⟩ with _wheel := 255 } 5 (7 + 1))[2]? = some c ∧
      (Rainbow.frameColors (fun b => b) { Rainbow.new ⟨0, 0, 0, 0, 0⟩ with _wheel := 255 } 5 7)[2 + 1]? = some c :=
  Rainbow_scrolls_one_pixel (fun b => b) { Rainbow.new ⟨0, 0, 0, 0, 0⟩ with _wheel := 255 } 5 7 2
    (by decide) (by decide) (by decide)

/-! ### RotatingMode: the tick -/

theorem RotatingMode_delegate_eq {M : Type} (runMode : M → M) (r : RotatingMode M)
    (h0 : 0 ≤ r.curIndex_) (h1 : r.curIndex_ < r.modes_.length) :
    ∃ m, subscript r.modes_ r.curIndex_ = some m ∧
      RotatingMode.delegate runMode r =
        some { r with modes_ := r.modes_.set r.curIndex_.toNat (runMode m) } := by
  obtain ⟨m, _, hs⟩ := subscript_of_lt r.modes_ r.curIndex_ h0 h1
  refine ⟨m, hs, ?_⟩
  unfold RotatingMode.delegate
  simp only [hs]

theorem RotatingMode_run_eq {M : Type} (runMode : M → M) (r : RotatingMode M) (now : Nat)
    (h0 : 0 ≤ r.curIndex_) (h1 : r.curIndex_ < r.numModes_)
    (hlen : r.numModes_ ≤ r.modes_.length) :
    ∃ r1, RotatingMode.run runMode r now = some r1 ∧
      r1.numModes_ = r.numModes_ ∧ r1.rotateTime_ = r.rotateTime_ ∧
      r1.modes_.length = r.modes_.length ∧
      (r.rotateTime_ ≤ (now : Int) - (r.lastSwitch_ : Int) →
        r1.curIndex_ = (r.curIndex_ + 1) % r.numModes_ ∧ r1.lastSwitch_ = now) ∧
      (¬ r.rotateTime_ ≤ (now : Int) - (r.lastSwitch_ : Int) →
        r1.curIndex_ = r.curIndex_ ∧ r1.lastSwitch_ = r.lastSwitch_) ∧
      (∃ m, subscript r.modes_ r1.curIndex_ = some m ∧
        r1.modes_ = r.modes_.set r1.curIndex_.toNat (runMode m)) := by
  by_cases hrot : r.rotateTime_ ≤ (now : Int) - (r.lastSwitch_ : Int)
  · have hn : 1 ≤ r.numModes_ := by omega
    have hm0 : 0 ≤ (r.curIndex_ + 1) % r.numModes_ := Int.emod_nonneg _ (by omega)
    have hm1 : (r.curIndex_ + 1) % r.numModes_ < r.numModes_ :=
      Int.emod_lt_of_pos _ (by omega)
    obtain ⟨m, hm, hd⟩ := RotatingMode_delegate_eq runMode
      { r with curIndex_ := (r.curIndex_ + 1) % r.numModes_, lastSwitch_ := now }
      hm0 (lt_of_lt_of_le hm1 hlen)
    refine ⟨{ r with
      curIndex_ := (r.curIndex_ + 1) % r.numModes_
      lastSwitch_ := now
      modes_ := r.modes_.set ((r.curIndex_ + 1) % r.numModes_).toNat (runMode m) },
      ?_, rfl, rfl, ?_, ?_, ?_, ?_⟩
    · unfold RotatingMode.run
      rw [if_pos hrot, cRem_of_nonneg _ _ (by omega) hn]
      exact hd
    · exact List.length_set _ _ _
    · intro _
      exact ⟨rfl, rfl⟩
    · intro hno
      exact absurd hrot hno
    · exact ⟨m, hm, rfl⟩
  · obtain ⟨m, hm, hd⟩ := RotatingMode_delegate_eq runMode r h0 (lt_of_lt_of_le h1 hlen)
    refine ⟨{ r with modes_ := r.modes_.set r.curIndex_.toNat (runMode m) },
      ?_, rfl, rfl, ?_, ?_, ?_, ?_⟩
    · unfold RotatingMode.run
      rw [if_neg hrot]
      exact hd
    · exact List.length_set _ _ _
    · intro hyes
      exact absurd hyes hrot
    · intro _
      exact ⟨rfl, rfl⟩
    · exact ⟨m, hm, rfl⟩

/-- C12: for a `RotatingMode` constructed over at least `numModes >= 1` modes with
`rotateTime = T > 1`, the ticks at the times `0`, `T - 1`, `T`, `2T` all return; the
active index is 0 after the ticks at `0` and `T - 1`, `1 mod numModes` after the tick
at `T` and `2 mod numModes` after the tick at `2T`, and `lastSwitch` is 0, 0, `T`,
`2T`.  In general a tick at time `now` on a mode with `curIndex` in `[0, numModes)`
sets `curIndex` to `(curIndex + 1) mod numModes` and `lastSwitch` to `now` when
`now - lastSwitch >= rotateTime`, leaves both unchanged otherwise, and then runs
`modes[curIndex]` for the index it has arrived at. -/
theorem RotatingMode_rotates_on_time {M : Type} (runMode : M → M) (modes : List M)
    (numModes : Int) (T : Nat) (hn : 1 ≤ numModes) (hlen : numModes ≤ modes.length)
    (hT : 1 < T) :
    (∃ r1 r2 r3 r4 : RotatingMode M,
      RotatingMode.run runMode (RotatingMode.new modes numModes ((T : Nat) : Int)) 0 = some r1 ∧
      r1.curIndex_ = 0 ∧ r1.lastSwitch_ = 0 ∧
      RotatingMode.run runMode r1 (T - 1) = some r2 ∧
      r2.curIndex_ = 0 ∧ r2.lastSwitch_ = 0 ∧
      RotatingMode.run runMode r2 T = some r3 ∧
      r3.curIndex_ = 1 % numModes ∧ r3.lastSwitch_ = T ∧
      RotatingMode.run runMode r3 (2 * T) = some r4 ∧
      r4.curIndex_ = 2 % numModes ∧ r4.lastSwitch_ = 2 * T) ∧
    (∀ (r : RotatingMode M) (now : Nat), 0 ≤ r.curIndex_ → r.curIndex_ < r.numModes_ →
      r.numModes_ ≤ r.modes_.length →
      ∃ r1, RotatingMode.run runMode r now = some r1 ∧
        r1.numModes_ = r.numModes_ ∧ r1.rotateTime_ = r.rotateTime_ ∧
        r1.modes_.length = r.modes_.length ∧
        (r.rotateTime_ ≤ (now : Int) - (r.lastSwitch_ : Int) →
          r1.curIndex_ = (r.curIndex_ + 1) % r.numModes_ ∧ r1.lastSwitch_ = now) ∧
        (¬ r.rotateTime_ ≤ (now : Int) - (r.lastSwitch_ : Int) →
          r1.curIndex_ = r.curIndex_ ∧ r1.lastSwitch_ = r.lastSwitch_) ∧
        (∃ m, subscript r.modes_ r1.curIndex_ = some m ∧
          r1.modes_ = r.modes_.set r1.curIndex_.toNat (runMode m))) := by
  refine ⟨?_, fun r now h0 h1 hl => RotatingMode_run_eq runMode r now h0 h1 hl⟩
  obtain ⟨r1, e1, n1, t1, l1, _, k1, _⟩ := RotatingMode_run_eq runMode
    (RotatingMode.new modes numModes ((T : Nat) : Int)) 0
    (le_refl 0) (show (0 : Int) < numModes by omega) hlen
  have hno1 : ¬ (RotatingMode.new modes numModes ((T : Nat) : Int)).rotateTime_ ≤
      ((0 : Nat) : Int) -
        ((RotatingMode.new modes numModes ((T : Nat) : Int)).lastSwitch_ : Int) := by
    show ¬ ((T : Int) ≤ ((0 : Nat) : Int) - ((0 : Nat) : Int))
    omega
  obtain ⟨c1, s1⟩ := k1 hno1
  have c1z : r1.curIndex_ = 0 := c1
  have s1z : r1.lastSwitch_ = 0 := s1
  have n1z : r1.numModes_ = numModes := n1
  have t1z : r1.rotateTime_ = (T : Int) := t1
  have l1z : r1.modes_.length = modes.length := l1
  obtain ⟨r2, e2, n2, t2, l2, _, k2, _⟩ := RotatingMode_run_eq runMode r1 (T - 1)
    (by omega) (by omega) (by omega)
  obtain ⟨c2, s2⟩ := k2 (by omega)
  obtain ⟨r3, e3, n3, t3, l3, y3, _, _⟩ := RotatingMode_run_eq runMode r2 T
    (by omega) (by omega) (by omega)
  obtain ⟨c3, s3⟩ := y3 (by omega)
  have c3z : r3.curIndex_ = 1 % numModes := by
    rw [c3, c2, c1z, n2, n1z]
    rfl
  have hc30 : 0 ≤ r3.curIndex_ := by
    rw [c3z]
    exact Int.emod_nonneg _ (by omega)
  have hc31 : r3.curIndex_ < r3.numModes_ := by
    rw [c3z, n3, n2, n1z]
    exact Int.emod_lt_of_pos _ (by omega)
  obtain ⟨r4, e4, _, _, _, y4, _, _⟩ := RotatingMode_run_eq runMode r3 (2 * T)
    hc30 hc31 (by omega)
  obtain ⟨c4, s4⟩ := y4 (by
    rw [t3, t2, t1z, s3]
    omega)
  have c4z : r4.curIndex_ = 2 % numModes := by
    rw [c4, c3z, n3, n2, n1z, Int.emod_add_emod]
    rfl
  exact ⟨r1, r2, r3, r4, e1, c1z, s1z, e2, by omega, by omega, e3, c3z, s3, e4, c4z, s4⟩

/-- Witness of C12: three modes that count their ticks, rotating every 10 time
units. -/
theorem RotatingMode_rotates_on_time_witness :
    (∃ r1 r2 r3 r4 : RotatingMode Nat,
      RotatingMode.run (fun k : Nat => k + 1) (RotatingMode.new [0, 0, 0] 3 ((10 : Nat) : Int)) 0 = some r1 ∧
      r1.curIndex_ = 0 ∧ r1.lastSwitch_ = 0 ∧
      RotatingMode.run (fun k : Nat => k + 1) r1 (10 - 1) = some r2 ∧
      r2.curIndex_ = 0 ∧ r2.lastSwitch_ = 0 ∧
      RotatingMode.run (fun k : Nat => k + 1) r2 10 = some r3 ∧
      r3.curIndex_ = 1 % 3 ∧ r3.lastSwitch_ = 10 ∧
      RotatingMode.run (fun k : Nat => k + 1) r3 (2 * 10) = some r4 ∧
      r4.curIndex_ = 2 % 3 ∧ r4.lastSwitch_ = 2 * 10) ∧
    (∀ (r : RotatingMode Nat) (now : Nat), 0 ≤ r.curIndex_ → r.curIndex_ < r.numModes_ →
      r.numModes_ ≤ r.modes_.length →
      ∃ r1, RotatingMode.run (fun k : Nat => k + 1) r now = some r1 ∧
        r1.numModes_ = r.numModes_ ∧ r1.rotateTime_ = r.rotateTime_ ∧
        r1.modes_.length = r.modes_.length ∧
        (r.rotateTime_ ≤ (now : Int) - (r.lastSwitch_ : Int) →
          r1.curIndex_ = (r.curIndex_ + 1) % r.numModes_ ∧ r1.lastSwitch_ = now) ∧
        (¬ r.rotateTime_ ≤ (now : Int) - (r.lastSwitch_ : Int) →
          r1.curIndex_ = r.curIndex_ ∧ r1.lastSwitch_ = r.lastSwitch_) ∧
        (∃ m, subscript r.modes_ r1.curIndex_ = some m ∧
          r1.modes_ = r.modes_.set r1.curIndex_.toNat ((fun k : Nat => k + 1) m))) :=
  RotatingMode_rotates_on_time (fun k : Nat => k + 1) [0, 0, 0] 3 10
    (by decide) (by decide) (by decide)

end Blinky
